import Mathlib

/-!
Verification of the politician_project ingestion pipeline.

Shallow embedding of the Python ETL scripts:
  scripts/ingest_fec_links.py   (normalize_name, parse_fec_name, transform_and_link, load_links_to_db)
  scripts/link_fec_ids.py       (get_politicians_to_link, find_and_link_fec_id)
  scripts/ingest_politicians.py (fetch_all_members, load_members_to_db)
  scripts/ingest_bills.py       (parse_bill_data, fetch_and_load_bills)
  scripts/ingest_votes.py       (get_bill_map, vote bill-key construction)
  scripts/ingest_bulk_donations.py (process_donations_chunk)

Pure string transformations are modelled on `List Char` / `String`; pandas
`NaN`-able cells and Python `None`-able values are modelled as `Option`;
the database tables are modelled as lists of row structures; the external
fuzzy scorer (`fuzzywuzzy.fuzz.token_sort_ratio`) is an abstract parameter.
-/

namespace PoliticianProject

/-! ### Models of the Python string primitives used by the scripts -/

/-- Model of Python `str.upper()` on a single character, for the ASCII range
the pipeline operates on: lowercase `a`-`z` (code points 97-122) map to the
corresponding uppercase letter, everything else is unchanged. -/
def pyUpperChar (c : Char) : Char :=
  if 97 ≤ c.toNat ∧ c.toNat ≤ 122 then Char.ofNat (c.toNat - 32) else c

/-- Model of Python `str.upper()`. -/
def pyUpper (s : String) : String :=
  String.mk (s.data.map pyUpperChar)

/-- The six characters Python's `str.strip()` removes by default
(space, tab, linefeed, carriage return, vertical tab, form feed). -/
def isPySpace (c : Char) : Bool :=
  c == ' ' || c == '\t' || c == '\n' || c == '\r' || c == '\x0b' || c == '\x0c'

/-- Remove leading whitespace (the left half of Python `str.strip()`). -/
def stripLeft (l : List Char) : List Char :=
  l.dropWhile isPySpace

/-- Remove trailing whitespace (the right half of Python `str.strip()`). -/
def stripRight (l : List Char) : List Char :=
  (l.reverse.dropWhile isPySpace).reverse

/-- Model of Python `str.strip()` on a character list. -/
def stripList (l : List Char) : List Char :=
  stripRight (stripLeft l)

/-- Model of Python `str.strip()`. -/
def pyStrip (s : String) : String :=
  String.mk (stripList s.data)

/-- Model of Python `str.replace(ch, '')`: delete every occurrence of `ch`. -/
def removeAll (ch : Char) (s : String) : String :=
  String.mk (s.data.filter (fun c => c ≠ ch))

/-- The character-list core of `normalize_name`: uppercase, delete periods,
delete commas, strip — `normalize_name (some s)` is exactly
`String.mk (normList s.data)`. -/
def normList (l : List Char) : List Char :=
  stripList (((l.map pyUpperChar).filter (fun c => c ≠ '.')).filter (fun c => c ≠ ','))

/-! ### scripts/ingest_fec_links.py : normalize_name and parse_fec_name -/

namespace IngestFecLinks

/-- Model of `normalize_name` (ingest_fec_links.py lines 34-43):
`None` input yields `""`; otherwise uppercase, delete `'.'`, delete `','`,
then strip surrounding whitespace — in exactly that order. -/
def normalize_name : Option String → String
  | none => ""
  | some s => pyStrip (removeAll ',' (removeAll '.' (pyUpper s)))

/-- Split a character list at the FIRST occurrence of the two-character
separator `", "`, returning the parts before and after it; `none` when the
separator does not occur.  This models Python's
`', ' in s` test together with `s.split(', ', 1)`. -/
def splitCommaSpace : List Char → Option (List Char × List Char)
  | [] => none
  | [_] => none
  | c1 :: c2 :: rest =>
    if c1 = ',' ∧ c2 = ' ' then some ([], rest)
    else (splitCommaSpace (c2 :: rest)).map (fun p => (c1 :: p.1, p.2))

/-- Model of `parse_fec_name` (ingest_fec_links.py lines 46-56): if `", "`
occurs, split once at its first occurrence and strip both parts, returning
`(last_name, first_name)`; otherwise return the whole stripped string as the
last name with an empty first name. -/
def parse_fec_name (s : String) : String × String :=
  match splitCommaSpace s.data with
  | some (a, b) => (pyStrip (String.mk a), pyStrip (String.mk b))
  | none => (pyStrip s, "")

end IngestFecLinks

namespace IngestPoliticians

/-- Model of the inline member-name parsing of `load_members_to_db`
(ingest_politicians.py lines 125-136): same first-`", "` split as
`parse_fec_name`, but a name without the separator leaves the first name
unset (`None`) rather than empty. -/
def parseMemberName (s : String) : String × Option String :=
  match IngestFecLinks.splitCommaSpace s.data with
  | some (a, b) => (pyStrip (String.mk a), some (pyStrip (String.mk b)))
  | none => (pyStrip s, none)

end IngestPoliticians

/-! ### The fuzzy-match selection loop shared by both FEC-linking scripts

`transform_and_link` (ingest_fec_links.py lines 121-135) and
`find_and_link_fec_id` (link_fec_ids.py lines 90-105) run the same loop:
`best_match = None; highest_score = 0; for c in pool: if score(c) > threshold
and score(c) > highest_score: highest_score = score(c); best_match = c`.
The external scorer `fuzz.token_sort_ratio` (0-100) is an abstract
parameter.  The two scripts differ only in the threshold (85 vs 80) and in
how the score of a candidate is computed. -/

/-- The body of the selection loop, carrying the running
`(best_match, highest_score)` state. -/
def bestMatchLoop {α : Type} (score : α → Nat) (threshold : Nat) :
    Option α → Nat → List α → Option α
  | best, _, [] => best
  | best, highest, c :: rest =>
    if threshold < score c ∧ highest < score c then
      bestMatchLoop score threshold (some c) (score c) rest
    else
      bestMatchLoop score threshold best highest rest

/-- The selection loop started from its initial state
(`best_match = None`, `highest_score = 0`). -/
def selectBestAbove {α : Type} (score : α → Nat) (threshold : Nat)
    (pool : List α) : Option α :=
  bestMatchLoop score threshold none 0 pool

/-- The winning-candidate test used to characterize the selection loop:
strictly above the threshold and scoring at least as high as every pool
member.  The first pool element satisfying it (if any) is the loop's
result, which makes the first-seen tie-break explicit. -/
def isTopScorer {α : Type} (score : α → Nat) (threshold : Nat)
    (pool : List α) (c : α) : Bool :=
  decide (threshold < score c) && pool.all (fun d => decide (score d ≤ score c))

/-! ### scripts/ingest_fec_links.py : transform_and_link and load_links_to_db -/

namespace IngestFecLinks

/-- A row of the `politicians` table as read by ingest_fec_links.py
(`pd.read_sql_table('politicians')`); nullable cells are `Option`. -/
structure DBPolitician where
  politician_id : Nat
  first_name : String
  last_name : String
  state : String
  fec_candidate_id : Option String
  fec_committee_id : Option String
deriving DecidableEq

/-- A row of the FEC candidate-master file (cn.txt), restricted to the
columns the script reads; every cell is `dtype=str` hence nullable. -/
structure FECCandidate where
  CAND_ID : String
  CAND_NAME : Option String
  CAND_OFFICE_ST : Option String
  CAND_PCC : Option String
deriving DecidableEq

/-- One entry of the `politicians_to_update` list built by
`transform_and_link`. -/
structure UpdateItem where
  db_id : Nat
  fec_cand_id : String
  fec_comm_id : Option String
deriving DecidableEq

/-- The inner candidate loop of `transform_and_link` (lines 121-135):
threshold 85, scoring the normalized DB name against the normalized FEC
name of each candidate. -/
def matchCandidate (fuzz : String → String → Nat) (db_name_norm : String)
    (pool : List FECCandidate) : Option FECCandidate :=
  selectBestAbove (fun c => fuzz db_name_norm (normalize_name c.CAND_NAME)) 85 pool

/-- Model of `transform_and_link` (lines 95-148): skip politicians whose
`fec_candidate_id` is already present, rebuild the "LAST, FIRST" name,
normalize it, restrict the pool to candidates of the same state, run the
selection loop, and emit one update item per confirmed match.  (The
explicit `potential_matches.empty` continue in the source is subsumed:
the selection loop returns `none` on an empty pool.) -/
def transform_and_link (fuzz : String → String → Nat)
    (db : List DBPolitician) (fec : List FECCandidate) : List UpdateItem :=
  db.filterMap (fun p =>
    if p.fec_candidate_id.isSome then none
    else
      let db_full_name := p.last_name ++ ", " ++ p.first_name
      let db_name_norm := normalize_name (some db_full_name)
      let potential := fec.filter (fun c => c.CAND_OFFICE_ST = some p.state)
      match matchCandidate fuzz db_name_norm potential with
      | some best => some ⟨p.politician_id, best.CAND_ID, best.CAND_PCC⟩
      | none => none)

/-- One step of `load_links_to_db` (lines 151-201): a single-row UPDATE in
its own transaction.  A violation of the uniqueness constraint on
`fec_candidate_id` (another row already holds the value) is caught and the
update is skipped (a "collision"); otherwise the row with the matching
`politician_id` receives the new FEC ids. -/
def applyLinkUpdate (table : List DBPolitician) (u : UpdateItem) :
    List DBPolitician :=
  if table.any (fun r => r.fec_candidate_id = some u.fec_cand_id) then table
  else
    table.map (fun r =>
      if r.politician_id = u.db_id then
        { r with fec_candidate_id := some u.fec_cand_id,
                 fec_committee_id := u.fec_comm_id }
      else r)

/-- Model of `load_links_to_db`: the updates are applied one by one. -/
def load_links_to_db (table : List DBPolitician) (updates : List UpdateItem) :
    List DBPolitician :=
  updates.foldl applyLinkUpdate table

/-- The whole ingest_fec_links.py pipeline run against a table and the FEC
candidate file: link, then load. -/
def runBulkLinkPipeline (fuzz : String → String → Nat)
    (table : List DBPolitician) (fec : List FECCandidate) : List DBPolitician :=
  load_links_to_db table (transform_and_link fuzz table fec)

end IngestFecLinks

/-! ### scripts/link_fec_ids.py : live-API FEC linking -/

namespace LinkFecIds

open IngestFecLinks (DBPolitician)

/-- One entry of the list built by `get_politicians_to_link`
(link_fec_ids.py lines 25-45). -/
structure PolLink where
  db_id : Nat
  first : String
  last : String
  state : String
deriving DecidableEq

/-- Model of `get_politicians_to_link`: selects exactly the rows with
`fec_candidate_id IS NULL`. -/
def get_politicians_to_link (table : List DBPolitician) : List PolLink :=
  (table.filter (fun r => r.fec_candidate_id = none)).map
    (fun r => ⟨r.politician_id, r.first_name, r.last_name, r.state⟩)

/-- A candidate object returned by the FEC search API; `name` and
`candidate_id` are read with `.get`, hence nullable. -/
structure FecApiCandidate where
  name : Option String
  candidate_id : Option String
deriving DecidableEq

/-- One HTTP response of the FEC search endpoint. -/
structure FecResponse where
  status : Nat
  results : List FecApiCandidate
deriving DecidableEq

/-- The request/retry step of `find_and_link_fec_id` (lines 72-78): issue
the request; on a 429 sleep 3601 seconds and retry the same request exactly
once.  The argument is the trace of responses the server would return to
successive identical requests; the result is the response the code goes on
to inspect, plus the list of rate-limit sleeps performed (in seconds). -/
def fecAttempt : List FecResponse → Option FecResponse × List Nat
  | [] => (none, [])
  | r :: rest =>
    if r.status = 429 then
      match rest with
      | [] => (none, [3601])
      | r2 :: _ => (some r2, [3601])
    else (some r, [])

/-- The inner candidate loop of `find_and_link_fec_id` (lines 90-105):
threshold 80, scoring the politician's "first last" string against each
candidate's `name` (missing name read as `""`). -/
def findBestCandidate (fuzz : String → String → Nat) (full_name : String)
    (results : List FecApiCandidate) : Option FecApiCandidate :=
  selectBestAbove (fun c => fuzz full_name (c.name.getD "")) 80 results

/-- The part of `find_and_link_fec_id` that inspects the response the
retry step settled on (lines 80-109): a non-200 status, an empty result
list, no confident match, or a missing/empty (falsy) `candidate_id` all
yield `None`. -/
def processFecResponse (fuzz : String → String → Nat) (full_name : String)
    (r : FecResponse) : Option String :=
  if r.status ≠ 200 then none
  else if r.results = [] then none
  else
    match findBestCandidate fuzz full_name r.results with
    | none => none
    | some best =>
      match best.candidate_id with
      | none => none
      | some fid => if fid = "" then none else some fid

/-- Model of `find_and_link_fec_id` (lines 48-119) up to the database
write: returns the linked FEC candidate id (`none` on any failure) and the
rate-limit sleeps performed. -/
def find_and_link_fec_id (fuzz : String → String → Nat) (pol : PolLink)
    (responses : List FecResponse) : Option String × List Nat :=
  let full_name := pol.first ++ " " ++ pol.last
  match fecAttempt responses with
  | (none, sleeps) => (none, sleeps)
  | (some r, sleeps) => (processFecResponse fuzz full_name r, sleeps)

/-- The per-match UPDATE of `find_and_link_fec_id` (lines 111-117):
set `fec_candidate_id` on the row with the given `politician_id`. -/
def applyFecIdUpdate (table : List DBPolitician) (db_id : Nat) (fid : String) :
    List DBPolitician :=
  table.map (fun r =>
    if r.politician_id = db_id then { r with fec_candidate_id := some fid }
    else r)

/-- One iteration of the link_fec_ids.py main loop (lines 133-150): search
the API for one politician and update its row when a link was found. -/
def apiLinkStep (fuzz : String → String → Nat)
    (oracle : PolLink → List FecResponse)
    (tbl : List DBPolitician) (pol : PolLink) : List DBPolitician :=
  match (find_and_link_fec_id fuzz pol (oracle pol)).1 with
  | some fid => applyFecIdUpdate tbl pol.db_id fid
  | none => tbl

/-- The whole link_fec_ids.py main loop: fetch the politicians with a null
FEC id, then for each one search the API (the `oracle` gives each
politician's response trace) and update its row when a link is found. -/
def runApiLinkPipeline (fuzz : String → String → Nat)
    (table : List DBPolitician) (oracle : PolLink → List FecResponse) :
    List DBPolitician :=
  (get_politicians_to_link table).foldl (apiLinkStep fuzz oracle) table

end LinkFecIds

/-! ### Python truthiness helpers -/

/-- Python falsiness of an optional string (`not x`): missing or empty. -/
def pyFalsyStr : Option String → Bool
  | none => true
  | some s => s = ""

/-- Python falsiness of an optional integer (`not x`): missing or zero. -/
def pyFalsyNat : Option Nat → Bool
  | none => true
  | some n => n = 0

/-! ### scripts/ingest_bills.py : parse_bill_data, paginated fetch, upsert -/

namespace IngestBills

/-- A bill object of the Congress.gov API response, restricted to the
fields `parse_bill_data` reads; every field is read with `.get`, hence
nullable.  `latestAction` is `none` when the key is absent or not a dict,
otherwise it carries the (nullable) `text` field. -/
structure BillApiData where
  number : Option String
  congress : Option Nat
  type : Option String
  title : Option String
  latestAction : Option (Option String)
deriving DecidableEq

/-- The dictionary `parse_bill_data` returns for a valid bill. -/
structure ParsedBill where
  official_bill_number : String
  bill_type : String
  congress : Nat
  title : Option String
  status : Option String
deriving DecidableEq

/-- Model of `parse_bill_data` (ingest_bills.py lines 27-57): the official
bill number is the plain concatenation `type + number` (no case change);
the record is rejected (`None`) when any of number, type, congress is
missing (or falsy: empty string / zero). -/
def parse_bill_data (b : BillApiData) : Option ParsedBill :=
  let latest_action_text : Option String :=
    match b.latestAction with
    | some t => t
    | none => none
  if pyFalsyStr b.number || pyFalsyStr b.type || pyFalsyNat b.congress then none
  else
    some { official_bill_number := b.type.getD "" ++ b.number.getD ""
           bill_type := b.type.getD ""
           congress := b.congress.getD 0
           title := b.title
           status := latest_action_text }

/-- A row of the `bills` table. -/
structure BillRow where
  official_bill_number : String
  bill_type : Option String
  congress : Nat
  title : Option String
  status : Option String
deriving DecidableEq

/-- The composite-key conflict test of the bills upsert:
`index_elements=['official_bill_number', 'congress']`. -/
def billKeyMatches (row : BillRow) (p : ParsedBill) : Bool :=
  row.official_bill_number = p.official_bill_number ∧ row.congress = p.congress

/-- One row of the `pg_insert(...).on_conflict_do_update` statement of
`fetch_and_load_bills` (lines 112-133): if a row with the same
(official_bill_number, congress) exists, overwrite its `title`, `status`,
`congress` and `bill_type` with the excluded (incoming) values — exactly
the columns listed in `set_` — otherwise insert a new row. -/
def upsertBill (table : List BillRow) (p : ParsedBill) : List BillRow :=
  if table.any (fun row => billKeyMatches row p) then
    table.map (fun row =>
      if billKeyMatches row p then
        { row with title := p.title, status := p.status,
                   congress := p.congress, bill_type := some p.bill_type }
      else row)
  else
    table ++ [⟨p.official_bill_number, some p.bill_type, p.congress, p.title, p.status⟩]

/-- A batch upsert: the rows of one API page, applied in order. -/
def upsertBills (table : List BillRow) (batch : List ParsedBill) : List BillRow :=
  batch.foldl upsertBill table

/-- One HTTP response of the paginated bill-list endpoint. -/
structure PageResponse where
  status : Nat
  bills : List BillApiData
  hasNext : Bool
deriving DecidableEq

/-- The pagination loop of `fetch_and_load_bills` for one congress
(lines 75-139): on 429 sleep 601 seconds and re-request the same page
(`continue` with `next_url` unchanged — unbounded retries); on any other
non-200 abort the loop keeping the pages already processed; on an empty
bill list abort likewise; otherwise process the page and follow the
pagination pointer.  The argument is the trace of successive responses;
the result is the list of processed pages and the rate-limit sleeps (in
seconds). -/
def fetchBillPages : List PageResponse → List (List BillApiData) × List Nat
  | [] => ([], [])
  | r :: rest =>
    if r.status = 429 then
      let p := fetchBillPages rest
      (p.1, 601 :: p.2)
    else if r.status ≠ 200 then ([], [])
    else if r.bills = [] then ([], [])
    else if r.hasNext then
      let p := fetchBillPages rest
      (r.bills :: p.1, p.2)
    else ([r.bills], [])

/-- The load phase of `fetch_and_load_bills` for one congress: every
fetched page is parsed (invalid bills dropped) and upserted as one batch. -/
def fetch_and_load_bills (table : List BillRow) (trace : List PageResponse) :
    List BillRow :=
  ((fetchBillPages trace).1.map (fun page => page.filterMap parse_bill_data)).foldl
    upsertBills table

end IngestBills

/-! ### scripts/ingest_votes.py : bill-key construction -/

namespace IngestVotes

/-- Python f-string rendering of a nullable string (`None` prints as
`"None"`). -/
def pyRender : Option String → String
  | none => "None"
  | some s => s

/-- The vote-side bill key of `scan_and_load_votes` (ingest_votes.py lines
113-119): `f"{bill_type}{bill_number}-{bill_congress}"` with
`bill_type = bill_obj.get('type').upper()`.  A missing `type` raises
`AttributeError` on `.upper()`, which the surrounding handler turns into
skipping the whole file — modelled as `none`. -/
def voteBillKey (btype bnumber bcongress : Option String) : Option String :=
  match btype with
  | none => none
  | some t => some (pyUpper t ++ pyRender bnumber ++ "-" ++ pyRender bcongress)

/-- The lookup key of `get_bill_map` (ingest_votes.py lines 50-66) for a
persisted bill: `f"{row.official_bill_number.upper()}-{row.congress}"`. -/
def get_bill_map_key (official_bill_number : String) (congress : Nat) : String :=
  pyUpper official_bill_number ++ "-" ++ toString congress

end IngestVotes

/-! ### scripts/ingest_politicians.py : member fetch and upsert -/

namespace IngestPoliticians

/-- One HTTP response of the paginated member endpoint; `μ` is the type of
raw member objects (opaque to the fetch loop). -/
structure MemberPage (μ : Type) where
  status : Nat
  members : List μ
  hasNext : Bool
deriving DecidableEq

/-- The pagination loop of `fetch_all_members` (ingest_politicians.py
lines 54-91): there is NO rate-limit handling — any non-200 response
(including 429) breaks the loop, returning the members accumulated so
far; otherwise the page's members are appended and the pagination pointer
followed. -/
def fetch_all_members {μ : Type} : List (MemberPage μ) → List μ
  | [] => []
  | r :: rest =>
    if r.status ≠ 200 then []
    else r.members ++ (if r.hasNext then fetch_all_members rest else [])

/-- A row of the `politicians` table as written by `load_members_to_db`. -/
structure PoliticianRow where
  congress_id : String
  first_name : Option String
  last_name : Option String
  party : Option String
  state : Option String
  chamber : Option String
  is_active : Bool
  start_year : Option Int
  end_year : Option Int
deriving DecidableEq

/-- The `insert_data` dictionary built for one member (lines 191-201). -/
structure MemberUpsert where
  congress_id : String
  first_name : Option String
  last_name : String
  party : Option String
  state : String
  chamber : Option String
  is_active : Bool
  start_year : Option Int
  end_year : Option Int
deriving DecidableEq

/-- One row of the `pg_insert(...).on_conflict_do_update` of
`load_members_to_db` (lines 209-238): conflict on `congress_id` updates
the eight listed mutable columns (`congress_id` itself is not in `set_`);
otherwise a new row is inserted. -/
def upsertMember (table : List PoliticianRow) (m : MemberUpsert) :
    List PoliticianRow :=
  if table.any (fun r => r.congress_id = m.congress_id) then
    table.map (fun r =>
      if r.congress_id = m.congress_id then
        { r with first_name := m.first_name, last_name := some m.last_name,
                 party := m.party, state := some m.state, chamber := m.chamber,
                 is_active := m.is_active, start_year := m.start_year,
                 end_year := m.end_year }
      else r)
  else
    table ++ [⟨m.congress_id, m.first_name, some m.last_name, m.party,
               some m.state, m.chamber, m.is_active, m.start_year, m.end_year⟩]

/-- The batch upsert of `load_members_to_db`, applied row by row. -/
def upsertMembers (table : List PoliticianRow) (batch : List MemberUpsert) :
    List PoliticianRow :=
  batch.foldl upsertMember table

end IngestPoliticians

/-! ### scripts/ingest_bulk_donations.py : process_donations_chunk -/

namespace IngestBulkDonations

/-- A row of the contribution file (itcont.txt) restricted to the columns
`process_donations_chunk` uses; read with `dtype=str`, so every cell is a
nullable string. -/
structure ContribRow where
  CMTE_ID : Option String
  AMNDT_IND : Option String
  NAME : Option String
  STATE : Option String
  ZIP_CODE : Option String
  EMPLOYER : Option String
  OCCUPATION : Option String
  ENTITY_TP : Option String
  TRANSACTION_DT : Option String
  TRANSACTION_AMT : Option String
  SUB_ID : Option String
deriving DecidableEq

/-- The synthetic donor key (lines 98-100):
`NAME.fillna('') + '|' + ZIP_CODE.fillna('') + '|' + EMPLOYER.fillna('')`. -/
def donor_uid (r : ContribRow) : String :=
  r.NAME.getD "" ++ "|" ++ r.ZIP_CODE.getD "" ++ "|" ++ r.EMPLOYER.getD ""

/-- Numeric value of a digit string (most significant first). -/
def digitsVal (cs : List Char) : Nat :=
  cs.foldl (fun a c => a * 10 + (c.toNat - 48)) 0

/-- Gregorian leap-year rule. -/
def isLeapYear (y : Nat) : Bool :=
  y % 4 = 0 && (y % 100 ≠ 0 || y % 400 = 0)

/-- Number of days of month `m` in year `y`. -/
def daysInMonth (m y : Nat) : Nat :=
  if m = 2 then (if isLeapYear y then 29 else 28)
  else if m = 4 || m = 6 || m = 9 || m = 11 then 30
  else 31

/-- Model of `pd.to_datetime(s, format='%m%d%Y', errors='coerce')` on one
cell (line 141): exactly eight digits, a real calendar date (month 1-12,
day within the month, leap years respected), `none` (NaT) otherwise.  The
year bounds reflect the pandas nanosecond `Timestamp` range (years
1677-2262), outside of which coercion also yields NaT. -/
def parseDateMMDDYYYY (s : String) : Option (Nat × Nat × Nat) :=
  let cs := s.data
  if cs.length = 8 && cs.all Char.isDigit then
    let m := digitsVal (cs.take 2)
    let d := digitsVal ((cs.drop 2).take 2)
    let y := digitsVal (cs.drop 4)
    if 1 ≤ m && m ≤ 12 && 1 ≤ d && d ≤ daysInMonth m y && 1678 ≤ y && y ≤ 2261 then
      some (m, d, y)
    else none
  else none

/-- Model of `pd.to_numeric(s, errors='coerce')` on one cell (line 142)
for the decimal forms occurring in the FEC files: optional sign, integer
part, optional fractional part (at least one digit overall); anything else
coerces to NaN (`none`). -/
def parseNumeric (s : String) : Option Rat :=
  let step1 : Bool × List Char :=
    match s.data with
    | '-' :: t => (true, t)
    | '+' :: t => (false, t)
    | t => (false, t)
  let neg := step1.1
  let cs1 := step1.2
  let intPart := cs1.takeWhile Char.isDigit
  let rest := cs1.dropWhile Char.isDigit
  let val : Option Rat :=
    match rest with
    | [] => if intPart.isEmpty then none else some (digitsVal intPart : Rat)
    | '.' :: frac =>
      if frac.all Char.isDigit && !(intPart.isEmpty && frac.isEmpty) then
        some ((digitsVal intPart : Rat) + (digitsVal frac : Rat) / ((10 : Rat) ^ frac.length))
      else none
    | _ => none
  val.map (fun v => if neg then -v else v)

/-- A row of the `donations` table as inserted by the chunk processor. -/
structure DonationRow where
  politician_id : Nat
  donor_id : Nat
  amount : Rat
  date : Nat × Nat × Nat
  fec_filing_id : Option String
deriving DecidableEq

/-- Model of `process_donations_chunk` (ingest_bulk_donations.py lines
85-153), as far as the donation inserts are concerned:
filter to target committees (a missing CMTE_ID never matches), keep only
amendment indicator `"N"`, then build each donation by resolving the
donor key through `uid_map` (the donors table read back after the donor
insert, line 131), the committee through `committee_map` (line 132), and
coercing amount and date; `dropna` (line 147) removes every row for which
any of politician_id, donor_id, amount, date is missing. -/
def process_donations_chunk (target_committees : List String)
    (committee_map : String → Option Nat) (uid_map : String → Option Nat)
    (chunk : List ContribRow) : List DonationRow :=
  let s1 := chunk.filter (fun r =>
    match r.CMTE_ID with
    | some c => target_committees.contains c
    | none => false)
  let s2 := s1.filter (fun r => r.AMNDT_IND = some "N")
  s2.filterMap (fun r =>
    match r.CMTE_ID.bind committee_map, uid_map (donor_uid r),
          r.TRANSACTION_AMT.bind parseNumeric,
          r.TRANSACTION_DT.bind parseDateMMDDYYYY with
    | some pid, some did, some amt, some dt => some ⟨pid, did, amt, dt, r.SUB_ID⟩
    | _, _, _, _ => none)

end IngestBulkDonations

/-! ## Supporting lemmas: the Python string primitives -/

theorem toNat_ofNat_valid (n : Nat) (h : n < 55296) : (Char.ofNat n).toNat = n := by
  have hv : n.isValidChar := Or.inl h
  simp only [Char.ofNat, hv, dif_pos, Char.ofNatAux, Char.toNat]
  rfl

theorem pyUpperChar_idem (c : Char) : pyUpperChar (pyUpperChar c) = pyUpperChar c := by
  unfold pyUpperChar
  by_cases h : 97 ≤ c.toNat ∧ c.toNat ≤ 122
  · rw [if_pos h, if_neg]
    rw [toNat_ofNat_valid (c.toNat - 32) (by omega)]
    omega
  · rw [if_neg h, if_neg h]

theorem head_dropWhile_false (p : Char → Bool) (l : List Char) (x : Char)
    (h : (l.dropWhile p).head? = some x) : p x = false := by
  have hm := List.head?_dropWhile_not p l
  rw [h] at hm
  simpa using hm

theorem dropWhile_idem (p : Char → Bool) (l : List Char) :
    (l.dropWhile p).dropWhile p = l.dropWhile p := by
  induction l with
  | nil => rfl
  | cons a t ih =>
    by_cases h : p a
    · simp [List.dropWhile_cons, h, ih]
    · simp [List.dropWhile_cons, h]

theorem dropWhile_eq_self_of_head (p : Char → Bool) (l : List Char)
    (h : ∀ x, l.head? = some x → p x = false) : l.dropWhile p = l := by
  cases l with
  | nil => rfl
  | cons a t => simp [List.dropWhile_cons, h a rfl]

theorem stripRight_prefix (l : List Char) : stripRight l <+: l := by
  rw [← List.reverse_suffix]
  unfold stripRight
  rw [List.reverse_reverse]
  exact List.dropWhile_suffix isPySpace

theorem head?_stripRight (l : List Char) (x : Char)
    (h : (stripRight l).head? = some x) : l.head? = some x := by
  obtain ⟨t, ht⟩ := stripRight_prefix l
  rw [← ht, List.head?_append]
  simp [h]

theorem stripLeft_stripRight_stripLeft (l : List Char) :
    stripLeft (stripRight (stripLeft l)) = stripRight (stripLeft l) := by
  apply dropWhile_eq_self_of_head
  intro x hx
  exact head_dropWhile_false isPySpace l x (head?_stripRight _ x hx)

theorem stripRight_idem (l : List Char) : stripRight (stripRight l) = stripRight l := by
  unfold stripRight
  rw [List.reverse_reverse, dropWhile_idem]

theorem stripList_idem (l : List Char) : stripList (stripList l) = stripList l := by
  unfold stripList
  rw [stripLeft_stripRight_stripLeft, stripRight_idem]

theorem mem_stripList (l : List Char) (x : Char) (h : x ∈ stripList l) : x ∈ l := by
  unfold stripList stripRight stripLeft at h
  simp only [List.mem_reverse] at h
  have h1 := (List.dropWhile_sublist
    (l := (List.dropWhile isPySpace l).reverse) isPySpace).mem h
  simp only [List.mem_reverse] at h1
  exact (List.dropWhile_sublist isPySpace).mem h1

theorem normList_idem (l : List Char) : normList (normList l) = normList l := by
  have hmem : ∀ c ∈ normList l,
      c ∈ ((l.map pyUpperChar).filter (fun c => c ≠ '.')).filter (fun c => c ≠ ',') :=
    fun c hc => mem_stripList _ c hc
  have h1 : ∀ c ∈ normList l, pyUpperChar c = c := by
    intro c hc
    have hc2 := (List.mem_filter.mp ((List.mem_filter.mp (hmem c hc)).1)).1
    obtain ⟨a, _, rfl⟩ := List.mem_map.mp hc2
    exact pyUpperChar_idem a
  have h2 : ∀ c ∈ normList l, (decide (c ≠ '.')) = true := by
    intro c hc
    exact (List.mem_filter.mp ((List.mem_filter.mp (hmem c hc)).1)).2
  have h3 : ∀ c ∈ normList l, (decide (c ≠ ',')) = true := by
    intro c hc
    exact (List.mem_filter.mp (hmem c hc)).2
  have hmap : (normList l).map pyUpperChar = normList l := by
    rw [List.map_congr_left (g := id) (fun a ha => h1 a ha), List.map_id]
  conv_lhs => rw [normList]
  rw [hmap, List.filter_eq_self.mpr h2, List.filter_eq_self.mpr h3]
  exact stripList_idem _

/-! ## Supporting lemmas: the first-`", "` split -/

theorem splitCS_sound (l a b : List Char)
    (h : IngestFecLinks.splitCommaSpace l = some (a, b)) :
    l = a ++ ',' :: ' ' :: b := by
  induction l using IngestFecLinks.splitCommaSpace.induct generalizing a b with
  | case1 => simp [IngestFecLinks.splitCommaSpace] at h
  | case2 c => simp [IngestFecLinks.splitCommaSpace] at h
  | case3 c1 c2 rest hcs =>
    rw [IngestFecLinks.splitCommaSpace, if_pos hcs] at h
    simp only [Option.some.injEq, Prod.mk.injEq] at h
    obtain ⟨rfl, rfl⟩ := h
    obtain ⟨rfl, rfl⟩ := hcs
    rfl
  | case4 c1 c2 rest hcs ih =>
    rw [IngestFecLinks.splitCommaSpace, if_neg hcs] at h
    obtain ⟨p, hp, hfp⟩ := Option.map_eq_some'.mp h
    simp only [Prod.mk.injEq] at hfp
    obtain ⟨rfl, rfl⟩ := hfp
    have := ih p.1 p.2 (by rw [hp])
    rw [List.cons_append, ← this]

theorem splitCS_first (l a b : List Char)
    (h : IngestFecLinks.splitCommaSpace l = some (a, b)) :
    ∀ a' b' : List Char, l = a' ++ ',' :: ' ' :: b' → a.length ≤ a'.length := by
  induction l using IngestFecLinks.splitCommaSpace.induct generalizing a b with
  | case1 => simp [IngestFecLinks.splitCommaSpace] at h
  | case2 c => simp [IngestFecLinks.splitCommaSpace] at h
  | case3 c1 c2 rest hcs =>
    rw [IngestFecLinks.splitCommaSpace, if_pos hcs] at h
    simp only [Option.some.injEq, Prod.mk.injEq] at h
    obtain ⟨rfl, rfl⟩ := h
    intro a' b' _
    simp
  | case4 c1 c2 rest hcs ih =>
    rw [IngestFecLinks.splitCommaSpace, if_neg hcs] at h
    obtain ⟨p, hp, hfp⟩ := Option.map_eq_some'.mp h
    simp only [Prod.mk.injEq] at hfp
    obtain ⟨rfl, rfl⟩ := hfp
    intro a' b' hl
    cases a' with
    | nil =>
      simp only [List.nil_append] at hl
      cases hl
      exact absurd ⟨rfl, rfl⟩ hcs
    | cons x a2 =>
      simp only [List.cons_append, List.cons.injEq] at hl
      obtain ⟨rfl, hl2⟩ := hl
      have := ih p.1 p.2 (by rw [hp]) a2 b' hl2
      simpa using this

/-! ## Supporting lemmas: characterization of the selection loop -/

theorem find?_congr_mem {α : Type} (p q : α → Bool) (l : List α)
    (h : ∀ x ∈ l, p x = q x) : l.find? p = l.find? q := by
  induction l with
  | nil => rfl
  | cons a t ih =>
    have ha := h a (List.mem_cons_self a t)
    by_cases hpa : p a = true
    · rw [List.find?_cons_of_pos _ hpa, List.find?_cons_of_pos _ (ha ▸ hpa)]
    · have hqa : ¬ q a = true := fun hq => hpa (ha ▸ hq)
      rw [List.find?_cons_of_neg _ hpa, List.find?_cons_of_neg _ hqa]
      exact ih (fun x hx => h x (List.mem_cons_of_mem a hx))

theorem exists_max_mem {α : Type} (score : α → Nat) (l : List α) (hne : l ≠ []) :
    ∃ m ∈ l, ∀ d ∈ l, score d ≤ score m := by
  induction l with
  | nil => exact absurd rfl hne
  | cons a t ih =>
    cases t with
    | nil => exact ⟨a, List.mem_cons_self a [], by simp⟩
    | cons b u =>
      obtain ⟨m, hm, hmax⟩ := ih (by simp)
      by_cases hcmp : score a ≤ score m
      · refine ⟨m, List.mem_cons_of_mem a hm, ?_⟩
        intro d hd
        rcases List.mem_cons.mp hd with rfl | hd'
        · exact hcmp
        · exact hmax d hd'
      · refine ⟨a, List.mem_cons_self a _, ?_⟩
        intro d hd
        rcases List.mem_cons.mp hd with rfl | hd'
        · exact Nat.le_refl _
        · exact Nat.le_trans (hmax d hd') (Nat.le_of_not_le hcmp)

theorem bestMatchLoop_eq_find? {α : Type} (score : α → Nat) (thr : Nat)
    (l : List α) : ∀ (b : Option α) (h : Nat),
    bestMatchLoop score thr b h l =
      match l.find? (isTopScorer score (max thr h) l) with
      | some c => some c
      | none => b := by
  induction l with
  | nil => intro b h; rfl
  | cons c rest ih =>
    intro b h
    by_cases hc : thr < score c ∧ h < score c
    · rw [bestMatchLoop, if_pos hc]
      rw [ih (some c) (score c)]
      by_cases hall : ∀ d ∈ rest, score d ≤ score c
      · have hPc : isTopScorer score (max thr h) (c :: rest) c = true := by
          simp only [isTopScorer, Bool.and_eq_true, decide_eq_true_eq,
            List.all_eq_true, List.mem_cons]
          refine ⟨by omega, ?_⟩
          rintro d (rfl | hd)
          · exact Nat.le_refl _
          · simpa using hall d hd
        rw [List.find?_cons_of_pos _ hPc]
        have hnone : rest.find? (isTopScorer score (max thr (score c)) rest) = none := by
          apply List.find?_eq_none.mpr
          intro x hx
          simp only [isTopScorer, Bool.and_eq_true, decide_eq_true_eq, not_and]
          intro hlt
          have := hall x hx
          omega
        rw [hnone]
      · push_neg at hall
        obtain ⟨e, he, hse⟩ := hall
        have hPc : ¬ isTopScorer score (max thr h) (c :: rest) c = true := by
          simp only [isTopScorer, Bool.and_eq_true, decide_eq_true_eq,
            List.all_eq_true, not_and]
          intro _ habs
          have := habs e (List.mem_cons_of_mem c he)
          omega
        rw [List.find?_cons_of_neg _ hPc]
        have hcong : rest.find? (isTopScorer score (max thr (score c)) rest) =
            rest.find? (isTopScorer score (max thr h) (c :: rest)) := by
          apply find?_congr_mem
          intro x hx
          rw [Bool.eq_iff_iff]
          simp only [isTopScorer, Bool.and_eq_true, decide_eq_true_eq,
            List.all_eq_true, List.mem_cons]
          constructor
          · rintro ⟨h1, h2⟩
            refine ⟨by omega, ?_⟩
            rintro d (rfl | hd)
            · have := h2 e he
              omega
            · exact h2 d hd
          · rintro ⟨h1, h2⟩
            have hce : score e ≤ score x := h2 e (Or.inr he)
            refine ⟨by omega, fun d hd => h2 d (Or.inr hd)⟩
        rw [hcong]
        have hsome : (rest.find? (isTopScorer score (max thr h) (c :: rest))).isSome := by
          obtain ⟨m, hm, hmax⟩ := exists_max_mem score rest (List.ne_nil_of_mem he)
          apply List.find?_isSome.mpr
          refine ⟨m, hm, ?_⟩
          simp only [isTopScorer, Bool.and_eq_true, decide_eq_true_eq,
            List.all_eq_true, List.mem_cons]
          have hem := hmax e he
          refine ⟨by omega, ?_⟩
          rintro d (rfl | hd)
          · omega
          · exact hmax d hd
        obtain ⟨d, hd⟩ := Option.isSome_iff_exists.mp hsome
        rw [hd]
    · rw [bestMatchLoop, if_neg hc]
      rw [ih b h]
      have hmaxc : score c ≤ max thr h := by omega
      have hPc : ¬ isTopScorer score (max thr h) (c :: rest) c = true := by
        simp only [isTopScorer, Bool.and_eq_true, decide_eq_true_eq, not_and]
        intro hlt
        omega
      rw [List.find?_cons_of_neg _ hPc]
      have hcong : rest.find? (isTopScorer score (max thr h) rest) =
          rest.find? (isTopScorer score (max thr h) (c :: rest)) := by
        apply find?_congr_mem
        intro x hx
        rw [Bool.eq_iff_iff]
        simp only [isTopScorer, Bool.and_eq_true, decide_eq_true_eq,
          List.all_eq_true, List.mem_cons]
        constructor
        · rintro ⟨h1, h2⟩
          refine ⟨h1, ?_⟩
          rintro d (rfl | hd)
          · omega
          · exact h2 d hd
        · rintro ⟨h1, h2⟩
          exact ⟨h1, fun d hd => h2 d (Or.inr hd)⟩
      rw [hcong]

theorem selectBestAbove_eq_find? {α : Type} (score : α → Nat) (thr : Nat)
    (pool : List α) :
    selectBestAbove score thr pool = pool.find? (isTopScorer score thr pool) := by
  rw [selectBestAbove, bestMatchLoop_eq_find?, Nat.max_zero]
  cases pool.find? (isTopScorer score thr pool) <;> rfl

theorem selectBestAbove_eq_none_iff {α : Type} (score : α → Nat) (thr : Nat)
    (pool : List α) :
    selectBestAbove score thr pool = none ↔ ∀ c ∈ pool, score c ≤ thr := by
  rw [selectBestAbove_eq_find?]
  constructor
  · intro hnone c hc
    by_contra hgt
    push_neg at hgt
    obtain ⟨m, hm, hmax⟩ := exists_max_mem score pool (List.ne_nil_of_mem hc)
    have hms : isTopScorer score thr pool m = true := by
      simp only [isTopScorer, Bool.and_eq_true, decide_eq_true_eq, List.all_eq_true]
      have := hmax c hc
      exact ⟨by omega, fun d hd => hmax d hd⟩
    have := List.find?_isSome.mpr ⟨m, hm, hms⟩
    rw [hnone] at this
    simp at this
  · intro hall
    apply List.find?_eq_none.mpr
    intro x hx
    simp only [isTopScorer, Bool.and_eq_true, decide_eq_true_eq, not_and]
    intro hlt
    exact absurd hlt (by have := hall x hx; omega)

/-! ## Claim C1 -/

/-- Claim C1: both matchers accept a candidate only when its score strictly
exceeds the running maximum AND the configured threshold (85 in
`transform_and_link`, 80 in `find_and_link_fec_id`).  Consequently the
result is exactly the first pool element that scores strictly above the
threshold and at least as high as every other element (`List.find?` of
`isTopScorer`): on equal maximal scores the first-encountered candidate
wins, and when no candidate exceeds the threshold the result is `none`. -/
theorem C1_matcher_selection :
    (∀ (fuzz : String → String → Nat) (db_name_norm : String)
       (pool : List IngestFecLinks.FECCandidate),
      IngestFecLinks.matchCandidate fuzz db_name_norm pool =
        pool.find? (isTopScorer
          (fun c => fuzz db_name_norm (IngestFecLinks.normalize_name c.CAND_NAME)) 85 pool) ∧
      (IngestFecLinks.matchCandidate fuzz db_name_norm pool = none ↔
        ∀ c ∈ pool, fuzz db_name_norm (IngestFecLinks.normalize_name c.CAND_NAME) ≤ 85)) ∧
    (∀ (fuzz : String → String → Nat) (full_name : String)
       (results : List LinkFecIds.FecApiCandidate),
      LinkFecIds.findBestCandidate fuzz full_name results =
        results.find? (isTopScorer
          (fun c => fuzz full_name (c.name.getD "")) 80 results) ∧
      (LinkFecIds.findBestCandidate fuzz full_name results = none ↔
        ∀ c ∈ results, fuzz full_name (c.name.getD "") ≤ 80)) := by
  constructor
  · intro fuzz nm pool
    exact ⟨selectBestAbove_eq_find? _ 85 pool, selectBestAbove_eq_none_iff _ 85 pool⟩
  · intro fuzz nm results
    exact ⟨selectBestAbove_eq_find? _ 80 results, selectBestAbove_eq_none_iff _ 80 results⟩

/-- Witness for C1: with a constant score of 90 both candidates tie above
both thresholds and the first-encountered one is returned; with a constant
score of 75 (below both thresholds) the result is `none`. -/
theorem C1_matcher_selection_witness :
    IngestFecLinks.matchCandidate (fun _ _ => 90) "KING ANGUS"
      [⟨"C001", some "KING, ANGUS", some "ME", none⟩,
       ⟨"C002", some "KING ANGUS", some "ME", none⟩] =
      some ⟨"C001", some "KING, ANGUS", some "ME", none⟩ ∧
    LinkFecIds.findBestCandidate (fun _ _ => 75) "Angus King"
      [⟨some "KING, ANGUS", some "F1"⟩] = none := by
  constructor
  · rw [(C1_matcher_selection.1 (fun _ _ => 90) "KING ANGUS" _).1]
    decide
  · rw [(C1_matcher_selection.2 (fun _ _ => 75) "Angus King" _).2]
    decide

/-! ## Claim C2 -/

/-- Claim C2: threshold monotonicity of the selection loop shared by both
linking pipelines — if `t1 ≤ t2`, every candidate accepted at threshold
`t2` is also accepted (with the same result) at threshold `t1`; raising
the threshold can only shrink or preserve the set of accepted matches. -/
theorem C2_threshold_monotone {α : Type} (score : α → Nat) (t1 t2 : Nat)
    (pool : List α) (c : α) (h12 : t1 ≤ t2)
    (hacc : selectBestAbove score t2 pool = some c) :
    selectBestAbove score t1 pool = some c := by
  rw [selectBestAbove_eq_find?] at hacc ⊢
  have hc : c ∈ pool := List.mem_of_find?_eq_some hacc
  have hPc := List.find?_some hacc
  simp only [isTopScorer, Bool.and_eq_true, decide_eq_true_eq, List.all_eq_true] at hPc
  obtain ⟨hthr, hmax⟩ := hPc
  have hcong : pool.find? (isTopScorer score t1 pool) =
      pool.find? (isTopScorer score t2 pool) := by
    apply find?_congr_mem
    intro x hx
    rw [Bool.eq_iff_iff]
    simp only [isTopScorer, Bool.and_eq_true, decide_eq_true_eq, List.all_eq_true]
    constructor
    · rintro ⟨h1, hall⟩
      have := hall c hc
      exact ⟨by omega, hall⟩
    · rintro ⟨h1, hall⟩
      exact ⟨by omega, hall⟩
  rw [hcong, hacc]

/-- Witness for C2: a candidate accepted at threshold 85 is still accepted,
with the same result, at the lower threshold 80. -/
theorem C2_threshold_monotone_witness :
    selectBestAbove (fun n : Nat => n) 80 [90, 90, 70] = some 90 :=
  C2_threshold_monotone (fun n => n) 80 85 [90, 90, 70] 90 (by decide) (by decide)

/-! ## Claim C7 -/

/-- Claim C7: `normalize_name` uppercases its input, strips all periods and
commas, and trims surrounding whitespace; it is idempotent and total (null
input yields the empty string); `normalize_name("O'Malley, Martin.")`
returns `"O'MALLEY MARTIN"` with the apostrophe preserved. -/
theorem C7_normalize_name_contract :
    (IngestFecLinks.normalize_name none = "") ∧
    (∀ s : String, IngestFecLinks.normalize_name (some s) =
      pyStrip (removeAll ',' (removeAll '.' (pyUpper s)))) ∧
    (∀ s : String,
      IngestFecLinks.normalize_name (some (IngestFecLinks.normalize_name (some s))) =
        IngestFecLinks.normalize_name (some s)) ∧
    (IngestFecLinks.normalize_name (some "O'Malley, Martin.") = "O'MALLEY MARTIN") := by
  refine ⟨rfl, fun s => rfl, fun s => ?_, by decide⟩
  show String.mk (normList (normList s.data)) = String.mk (normList s.data)
  rw [normList_idem]

/-! ## Claim C8 -/

/-- Claim C8 counterexample: the parsers split on the two-character
separator `", "`, not on a bare comma, so `"Smith,John"` (comma, no space)
is NOT split into last=`"Smith"`, first=`"John"`: the whole string becomes
the last name. -/
theorem C8_counterexample :
    IngestFecLinks.parse_fec_name "Smith,John" = ("Smith,John", "") ∧
    IngestFecLinks.parse_fec_name "Smith,John" ≠ ("Smith", "John") ∧
    IngestPoliticians.parseMemberName "Smith,John" = ("Smith,John", none) ∧
    IngestPoliticians.parseMemberName "Smith,John" ≠ ("Smith", some "John") := by
  refine ⟨by decide, by decide, by decide, by decide⟩

/-- Claim C8 (amended): both person-name parsers split on the FIRST
occurrence of the two-character separator `", "` (comma followed by a
space) only, yielding the stripped text before it as the last name and
everything after it — later commas included — as the first name, so
`"Smith, John, Jr."` parses to last=`"Smith"`, first=`"John, Jr."`; when
the separator is absent the whole stripped string becomes the last name
and the first name is empty (`parse_fec_name`) or unset
(`parseMemberName`). -/
theorem C8_split_on_first_comma_space :
    (∀ (s : String) (pre post : List Char),
      IngestFecLinks.splitCommaSpace s.data = some (pre, post) →
        s.data = pre ++ ',' :: ' ' :: post ∧
        (∀ pre' post' : List Char,
          s.data = pre' ++ ',' :: ' ' :: post' → pre.length ≤ pre'.length) ∧
        IngestFecLinks.parse_fec_name s =
          (pyStrip (String.mk pre), pyStrip (String.mk post)) ∧
        IngestPoliticians.parseMemberName s =
          (pyStrip (String.mk pre), some (pyStrip (String.mk post)))) ∧
    (∀ s : String, IngestFecLinks.splitCommaSpace s.data = none →
        IngestFecLinks.parse_fec_name s = (pyStrip s, "") ∧
        IngestPoliticians.parseMemberName s = (pyStrip s, none)) ∧
    (IngestFecLinks.parse_fec_name "Smith, John, Jr." = ("Smith", "John, Jr.")) ∧
    (IngestPoliticians.parseMemberName "Smith, John, Jr." = ("Smith", some "John, Jr.")) := by
  refine ⟨?_, ?_, by decide, by decide⟩
  · intro s pre post h
    refine ⟨splitCS_sound _ _ _ h, splitCS_first _ _ _ h, ?_, ?_⟩
    · rw [IngestFecLinks.parse_fec_name, h]
    · rw [IngestPoliticians.parseMemberName, h]
  · intro s h
    constructor
    · rw [IngestFecLinks.parse_fec_name, h]
    · rw [IngestPoliticians.parseMemberName, h]

/-- Witness for C8: the amended split law applied to the concrete input
`"King, Angus S., Jr."`, whose first `", "` occurs after `"King"`. -/
theorem C8_split_on_first_comma_space_witness :
    "King, Angus S., Jr.".data =
      "King".data ++ ',' :: ' ' :: "Angus S., Jr.".data ∧
    IngestFecLinks.parse_fec_name "King, Angus S., Jr." = ("King", "Angus S., Jr.") := by
  have h := (C8_split_on_first_comma_space.1 "King, Angus S., Jr."
    "King".data "Angus S., Jr.".data (by decide))
  exact ⟨h.1, by rw [h.2.2.1]; decide⟩

/-! ## Claim C9 -/

/-- Claim C9 counterexample: the claim quantifies over every string that
contains SOME comma not immediately followed by a space, but
`"Smith,John, Jr."` is such a string (position 5 holds `','` followed by
`'J'`) and the parsers do NOT treat it as comma-free: they split at the
later `", "`, so the last name is not the whole string and the first name
is not empty. -/
theorem C9_counterexample :
    ("Smith,John, Jr.".data.get? 5 = some ',' ∧
     "Smith,John, Jr.".data.get? 6 = some 'J') ∧
    IngestFecLinks.parse_fec_name "Smith,John, Jr." = ("Smith,John", "Jr.") ∧
    IngestFecLinks.parse_fec_name "Smith,John, Jr." ≠ ("Smith,John, Jr.", "") ∧
    IngestPoliticians.parseMemberName "Smith,John, Jr." ≠ ("Smith,John, Jr.", none) := by
  refine ⟨⟨by decide, by decide⟩, by decide, by decide, by decide⟩

theorem splitCS_complete (l : List Char)
    (h : IngestFecLinks.splitCommaSpace l = none) :
    ∀ a b : List Char, l ≠ a ++ ',' :: ' ' :: b := by
  induction l using IngestFecLinks.splitCommaSpace.induct with
  | case1 =>
    intro a b hab
    exact absurd hab.symm (List.append_ne_nil_of_right_ne_nil a (by simp))
  | case2 c =>
    intro a b hab
    have := congrArg List.length hab
    simp [List.length_append] at this
    omega
  | case3 c1 c2 rest hcs =>
    rw [IngestFecLinks.splitCommaSpace, if_pos hcs] at h
    exact absurd h (by simp)
  | case4 c1 c2 rest hcs ih =>
    rw [IngestFecLinks.splitCommaSpace, if_neg hcs] at h
    have hrec := Option.map_eq_none'.mp h
    intro a b hab
    cases a with
    | nil =>
      simp only [List.nil_append, List.cons.injEq] at hab
      exact hcs ⟨hab.1, hab.2.1⟩
    | cons x a' =>
      simp only [List.cons_append, List.cons.injEq] at hab
      exact absurd hab.2 (ih hrec a' b)

/-- Claim C9 (amended): for every input name string with NO occurrence of
the two-character separator `", "` — even when bare commas are present, as
in `"Smith,John"` — both name parsers treat the string as having no comma
at all: the entire stripped string becomes the last name and the first
name is left empty (`parse_fec_name`) or unset (`parseMemberName`). -/
theorem C9_bare_comma_not_split :
    (∀ s : String, IngestFecLinks.splitCommaSpace s.data = none →
      (∀ pre post : List Char, s.data ≠ pre ++ ',' :: ' ' :: post) ∧
      IngestFecLinks.parse_fec_name s = (pyStrip s, "") ∧
      IngestPoliticians.parseMemberName s = (pyStrip s, none)) ∧
    (IngestFecLinks.parse_fec_name "Smith,John" = ("Smith,John", "")) ∧
    (IngestPoliticians.parseMemberName "Smith,John" = ("Smith,John", none)) := by
  refine ⟨?_, by decide, by decide⟩
  intro s hnone
  refine ⟨splitCS_complete _ hnone, ?_, ?_⟩
  · rw [IngestFecLinks.parse_fec_name, hnone]
  · rw [IngestPoliticians.parseMemberName, hnone]

/-- Witness for C9 (amended): applied to the concrete comma-bearing,
separator-free input `"Smith,John"`. -/
theorem C9_bare_comma_not_split_witness :
    IngestFecLinks.parse_fec_name "Smith,John" = (pyStrip "Smith,John", "") ∧
    IngestPoliticians.parseMemberName "Smith,John" = (pyStrip "Smith,John", none) :=
  ⟨(C9_bare_comma_not_split.1 "Smith,John" (by decide)).2.1,
   (C9_bare_comma_not_split.1 "Smith,John" (by decide)).2.2⟩

/-! ## Claim C6 -/

/-- Claim C6: bill-key construction — `parse_bill_data` rejects a bill
(no key, `None`) when any of type, number, congress is missing; the
vote-side key builder rejects a record with a missing type, and for
present fields uppercases the bill type, concatenates type and number,
and tracks congress separately after the dash; in particular type `"HR"`,
number `"3076"`, congress `"118"` yields `"HR3076-118"`, which equals the
lookup key `get_bill_map` builds for a persisted bill with
`official_bill_number = "HR3076"` and `congress = 118`. -/
theorem C6_bill_key :
    (∀ b : IngestBills.BillApiData,
      b.type = none ∨ b.number = none ∨ b.congress = none →
        IngestBills.parse_bill_data b = none) ∧
    (∀ bnumber bcongress : Option String,
      IngestVotes.voteBillKey none bnumber bcongress = none) ∧
    (∀ t n c : String,
      IngestVotes.voteBillKey (some t) (some n) (some c) =
        some (pyUpper t ++ n ++ "-" ++ c)) ∧
    (IngestVotes.voteBillKey (some "HR") (some "3076") (some "118") =
      some "HR3076-118") ∧
    (IngestVotes.get_bill_map_key "HR3076" 118 = "HR3076-118") := by
  refine ⟨?_, fun _ _ => rfl, fun t n c => rfl, by decide, by decide⟩
  intro b h
  rcases h with h | h | h <;>
    simp [IngestBills.parse_bill_data, h, pyFalsyStr, pyFalsyNat]

/-- Witness for C6: a bill object with a missing congress field is
rejected by `parse_bill_data`. -/
theorem C6_bill_key_witness :
    IngestBills.parse_bill_data ⟨some "3076", none, some "HR", some "T", none⟩ = none :=
  C6_bill_key.1 ⟨some "3076", none, some "HR", some "T", none⟩ (Or.inr (Or.inr rfl))

/-! ## Claim C5 -/

/-- Claim C5 counterexample: the claim says EVERY paginated fetch loop
suspends and retries the same page on HTTP 429, with unbounded retries on
repeated 429s.  But (1) the member fetch loop has no 429 handling at all:
a 429 aborts it with the data collected so far, even though the very next
response would have succeeded; and (2) the FEC search fetch retries only
once: two consecutive 429s abort the lookup even though a third attempt
would have succeeded.  (The bill-feed loop, by contrast, does retry
through repeated 429s — last conjunct.) -/
theorem C5_counterexample :
    (IngestPoliticians.fetch_all_members (μ := Nat)
      [⟨429, [1], true⟩, ⟨200, [2], false⟩] = [] ∧
     IngestPoliticians.fetch_all_members (μ := Nat) [⟨200, [2], false⟩] = [2]) ∧
    ((LinkFecIds.find_and_link_fec_id (fun _ _ => 100) ⟨1, "Angus", "King", "ME"⟩
        [⟨429, []⟩, ⟨429, []⟩, ⟨200, [⟨some "KING, ANGUS", some "F1"⟩]⟩]).1 = none ∧
     (LinkFecIds.find_and_link_fec_id (fun _ _ => 100) ⟨1, "Angus", "King", "ME"⟩
        [⟨200, [⟨some "KING, ANGUS", some "F1"⟩]⟩]).1 = some "F1") ∧
    (IngestBills.fetchBillPages
        [⟨429, [], true⟩, ⟨429, [], true⟩,
         ⟨200, [⟨some "3076", some 118, some "HR", some "T", none⟩], false⟩]).1 =
      [[⟨some "3076", some 118, some "HR", some "T", none⟩]] := by
  refine ⟨⟨by decide, by decide⟩, ⟨by decide, by decide⟩, by decide⟩

/-- Claim C5 (amended): rate-limit handling is per feed.  The bill feed's
pagination loop sleeps 601 seconds on each HTTP 429 and re-requests the
same page, with unbounded retries; any non-429 non-200 response aborts
that loop, and pages already processed are preserved.  The FEC search
request sleeps 3601 seconds and retries exactly once on a 429; whatever
the second response is, it is final — a second 429 (or any other non-200)
aborts the lookup with no match.  The member fetch loop has no rate-limit
handling: any non-200 response, 429 included, aborts it, preserving the
members collected so far. -/
theorem C5_rate_limit_behavior :
    (∀ (r : IngestBills.PageResponse) (rest : List IngestBills.PageResponse),
      r.status = 429 →
        IngestBills.fetchBillPages (r :: rest) =
          ((IngestBills.fetchBillPages rest).1,
           601 :: (IngestBills.fetchBillPages rest).2)) ∧
    (∀ (r : IngestBills.PageResponse) (rest : List IngestBills.PageResponse),
      r.status ≠ 429 → r.status ≠ 200 →
        IngestBills.fetchBillPages (r :: rest) = ([], [])) ∧
    (∀ (r : IngestBills.PageResponse) (rest : List IngestBills.PageResponse),
      r.status = 200 → r.bills ≠ [] → r.hasNext = true →
        IngestBills.fetchBillPages (r :: rest) =
          (r.bills :: (IngestBills.fetchBillPages rest).1,
           (IngestBills.fetchBillPages rest).2)) ∧
    (∀ {μ : Type} (r : IngestPoliticians.MemberPage μ)
       (rest : List (IngestPoliticians.MemberPage μ)),
      r.status ≠ 200 → IngestPoliticians.fetch_all_members (r :: rest) = []) ∧
    (∀ {μ : Type} (r : IngestPoliticians.MemberPage μ)
       (rest : List (IngestPoliticians.MemberPage μ)),
      r.status = 200 → r.hasNext = true →
        IngestPoliticians.fetch_all_members (r :: rest) =
          r.members ++ IngestPoliticians.fetch_all_members rest) ∧
    (∀ (fuzz : String → String → Nat) (pol : LinkFecIds.PolLink)
       (r1 r2 : LinkFecIds.FecResponse) (rest : List LinkFecIds.FecResponse),
      r1.status = 429 → r2.status = 429 →
        LinkFecIds.find_and_link_fec_id fuzz pol (r1 :: r2 :: rest) =
          (none, [3601])) ∧
    (∀ (fuzz : String → String → Nat) (pol : LinkFecIds.PolLink)
       (r1 r2 : LinkFecIds.FecResponse) (rest rest' : List LinkFecIds.FecResponse),
      r1.status = 429 → r2.status ≠ 429 →
        LinkFecIds.find_and_link_fec_id fuzz pol (r1 :: r2 :: rest) =
          ((LinkFecIds.find_and_link_fec_id fuzz pol (r2 :: rest')).1, [3601])) ∧
    (∀ (fuzz : String → String → Nat) (pol : LinkFecIds.PolLink)
       (r : LinkFecIds.FecResponse) (rest : List LinkFecIds.FecResponse),
      r.status ≠ 429 → r.status ≠ 200 →
        LinkFecIds.find_and_link_fec_id fuzz pol (r :: rest) = (none, [])) := by
  refine ⟨?_, ?_, ?_, ?_, ?_, ?_, ?_, ?_⟩
  · intro r rest h
    simp [IngestBills.fetchBillPages, h]
  · intro r rest h1 h2
    simp [IngestBills.fetchBillPages, h1, h2]
  · intro r rest h1 h2 h3
    simp [IngestBills.fetchBillPages, h1, h2, h3]
  · intro μ r rest h
    simp [IngestPoliticians.fetch_all_members, h]
  · intro μ r rest h1 h2
    simp [IngestPoliticians.fetch_all_members, h1, h2]
  · intro fuzz pol r1 r2 rest h1 h2
    simp [LinkFecIds.find_and_link_fec_id, LinkFecIds.fecAttempt, h1,
      LinkFecIds.processFecResponse, h2]
  · intro fuzz pol r1 r2 rest rest' h1 h2
    simp [LinkFecIds.find_and_link_fec_id, LinkFecIds.fecAttempt, h1, h2]
  · intro fuzz pol r rest h1 h2
    simp [LinkFecIds.find_and_link_fec_id, LinkFecIds.fecAttempt, h1,
      LinkFecIds.processFecResponse, h2]

/-- Witness for C5 (amended): each per-feed behavior applied at a concrete
trace. -/
theorem C5_rate_limit_behavior_witness :
    IngestBills.fetchBillPages [⟨429, [], true⟩] = ([], [601]) ∧
    IngestBills.fetchBillPages [⟨500, [], true⟩] = ([], []) ∧
    IngestBills.fetchBillPages
      [⟨200, [⟨some "1", some 118, some "HR", none, none⟩], true⟩] =
      ([[⟨some "1", some 118, some "HR", none, none⟩]], []) ∧
    IngestPoliticians.fetch_all_members (μ := Nat) [⟨429, [7], true⟩] = [] ∧
    IngestPoliticians.fetch_all_members (μ := Nat) [⟨200, [7], true⟩] = [7] ∧
    LinkFecIds.find_and_link_fec_id (fun _ _ => 100) ⟨1, "A", "B", "ME"⟩
      [⟨429, []⟩, ⟨429, []⟩] = (none, [3601]) ∧
    LinkFecIds.find_and_link_fec_id (fun _ _ => 100) ⟨1, "A", "B", "ME"⟩
      [⟨429, []⟩, ⟨200, [⟨some "N", some "F2"⟩]⟩] =
      ((LinkFecIds.find_and_link_fec_id (fun _ _ => 100) ⟨1, "A", "B", "ME"⟩
        [⟨200, [⟨some "N", some "F2"⟩]⟩]).1, [3601]) ∧
    LinkFecIds.find_and_link_fec_id (fun _ _ => 100) ⟨1, "A", "B", "ME"⟩
      [⟨404, []⟩] = (none, []) := by
  refine ⟨?_, ?_, ?_, ?_, ?_, ?_, ?_, ?_⟩
  · simpa using C5_rate_limit_behavior.1 ⟨429, [], true⟩ [] rfl
  · simpa using C5_rate_limit_behavior.2.1 ⟨500, [], true⟩ [] (by decide) (by decide)
  · simpa using C5_rate_limit_behavior.2.2.1
      ⟨200, [⟨some "1", some 118, some "HR", none, none⟩], true⟩ [] rfl (by decide) rfl
  · exact C5_rate_limit_behavior.2.2.2.1 ⟨429, [7], true⟩ [] (by decide)
  · simpa using C5_rate_limit_behavior.2.2.2.2.1 ⟨200, [7], true⟩ [] rfl rfl
  · exact C5_rate_limit_behavior.2.2.2.2.2.1 (fun _ _ => 100) ⟨1, "A", "B", "ME"⟩
      ⟨429, []⟩ ⟨429, []⟩ [] rfl rfl
  · exact C5_rate_limit_behavior.2.2.2.2.2.2.1 (fun _ _ => 100) ⟨1, "A", "B", "ME"⟩
      ⟨429, []⟩ ⟨200, [⟨some "N", some "F2"⟩]⟩ [] [] rfl (by decide)
  · exact C5_rate_limit_behavior.2.2.2.2.2.2.2 (fun _ _ => 100) ⟨1, "A", "B", "ME"⟩
      ⟨404, []⟩ [] (by decide) (by decide)

/-! ## Claim C3 -/

/-- Claim C3: a contribution row is inserted as a donation only if its
amendment indicator is `"N"`, its committee reference is a tracked
committee that resolves through the committee map, its donor key resolves
through the donors table, and its amount and date both coerce successfully
— every inserted donation originates from a row passing all these checks,
so rows failing any check are dropped and never inserted.  The second
conjunct is Scenario D: a row whose amendment indicator is not `"N"`
(e.g. `"A"`) contributes nothing to the batch. -/
theorem C3_donation_validation :
    (∀ (targets : List String) (cmap umap : String → Option Nat)
       (chunk : List IngestBulkDonations.ContribRow)
       (d : IngestBulkDonations.DonationRow),
      d ∈ IngestBulkDonations.process_donations_chunk targets cmap umap chunk →
        ∃ r, r ∈ chunk ∧
          r.AMNDT_IND = some "N" ∧
          (∃ cid, r.CMTE_ID = some cid ∧ cid ∈ targets ∧
            cmap cid = some d.politician_id) ∧
          umap (IngestBulkDonations.donor_uid r) = some d.donor_id ∧
          r.TRANSACTION_AMT.bind IngestBulkDonations.parseNumeric = some d.amount ∧
          r.TRANSACTION_DT.bind IngestBulkDonations.parseDateMMDDYYYY = some d.date ∧
          d.fec_filing_id = r.SUB_ID) ∧
    (∀ (targets : List String) (cmap umap : String → Option Nat)
       (r : IngestBulkDonations.ContribRow),
      r.AMNDT_IND ≠ some "N" →
        IngestBulkDonations.process_donations_chunk targets cmap umap [r] = []) := by
  constructor
  · intro targets cmap umap chunk d hd
    simp only [IngestBulkDonations.process_donations_chunk] at hd
    obtain ⟨r, hr, hfr⟩ := List.mem_filterMap.mp hd
    obtain ⟨hr1, hN⟩ := List.mem_filter.mp hr
    obtain ⟨hchunk, hcmte⟩ := List.mem_filter.mp hr1
    have hN' : r.AMNDT_IND = some "N" := of_decide_eq_true hN
    cases h1 : r.CMTE_ID.bind cmap with
    | none => simp [h1] at hfr
    | some pid =>
      cases h2 : umap (IngestBulkDonations.donor_uid r) with
      | none => simp [h1, h2] at hfr
      | some did =>
        cases h3 : r.TRANSACTION_AMT.bind IngestBulkDonations.parseNumeric with
        | none => simp [h1, h2, h3] at hfr
        | some amt =>
          cases h4 : r.TRANSACTION_DT.bind IngestBulkDonations.parseDateMMDDYYYY with
          | none => simp [h1, h2, h3, h4] at hfr
          | some dt =>
            simp only [h1, h2, h3, h4] at hfr
            have hd' := Option.some.inj hfr
            subst hd'
            refine ⟨r, hchunk, hN', ?_, h2, h3, h4, rfl⟩
            cases hcid : r.CMTE_ID with
            | none => rw [hcid] at hcmte; exact absurd hcmte (by simp)
            | some cid =>
              rw [hcid] at hcmte h1
              simp only [Option.some_bind] at h1
              exact ⟨cid, rfl, List.elem_iff.mp hcmte, h1⟩
  · intro targets cmap umap r hN
    simp only [IngestBulkDonations.process_donations_chunk]
    have hnil : List.filter (fun r => decide (r.AMNDT_IND = some "N"))
        (List.filter (fun r : IngestBulkDonations.ContribRow =>
          match r.CMTE_ID with
          | some c => targets.contains c
          | none => false) [r]) = [] := by
      apply List.filter_eq_nil_iff.mpr
      intro a ha
      have hmem := List.mem_of_mem_filter ha
      rw [List.mem_singleton] at hmem
      subst hmem
      simp [hN]
    rw [hnil]
    rfl

/-- Witness for C3: a concrete in-target, unamended, fully-resolvable row
produces a donation that the theorem traces back to it; Scenario D is
exercised separately by the second conjunct of the theorem. -/
theorem C3_donation_validation_witness :
    (∃ r, r ∈ [(⟨some "CC1", some "N", some "DOE JANE", some "NY", some "12345",
        some "ACME", some "ENG", some "IND", some "01152024", some "500",
        some "SUB1"⟩ : IngestBulkDonations.ContribRow)] ∧
      r.AMNDT_IND = some "N" ∧
      (∃ cid, r.CMTE_ID = some cid ∧ cid ∈ ["CC1"] ∧
        (fun c => if c = "CC1" then some 5 else none) cid =
          some (⟨5, 9, 500, (1, 15, 2024), some "SUB1"⟩ :
            IngestBulkDonations.DonationRow).politician_id) ∧
      (fun u => if u = "DOE JANE|12345|ACME" then some 9 else none)
        (IngestBulkDonations.donor_uid r) =
          some (⟨5, 9, 500, (1, 15, 2024), some "SUB1"⟩ :
            IngestBulkDonations.DonationRow).donor_id ∧
      r.TRANSACTION_AMT.bind IngestBulkDonations.parseNumeric =
        some (⟨5, 9, 500, (1, 15, 2024), some "SUB1"⟩ :
          IngestBulkDonations.DonationRow).amount ∧
      r.TRANSACTION_DT.bind IngestBulkDonations.parseDateMMDDYYYY =
        some (⟨5, 9, 500, (1, 15, 2024), some "SUB1"⟩ :
          IngestBulkDonations.DonationRow).date ∧
      (⟨5, 9, 500, (1, 15, 2024), some "SUB1"⟩ :
        IngestBulkDonations.DonationRow).fec_filing_id = r.SUB_ID) ∧
    IngestBulkDonations.process_donations_chunk ["CC1"]
      (fun c => if c = "CC1" then some 5 else none)
      (fun u => if u = "DOE JANE|12345|ACME" then some 9 else none)
      [⟨some "CC1", some "A", some "DOE JANE", some "NY", some "12345",
        some "ACME", some "ENG", some "IND", some "01152024", some "500",
        some "SUB1"⟩] = [] :=
  ⟨C3_donation_validation.1 ["CC1"]
      (fun c => if c = "CC1" then some 5 else none)
      (fun u => if u = "DOE JANE|12345|ACME" then some 9 else none)
      [⟨some "CC1", some "N", some "DOE JANE", some "NY", some "12345",
        some "ACME", some "ENG", some "IND", some "01152024", some "500",
        some "SUB1"⟩]
      ⟨5, 9, 500, (1, 15, 2024), some "SUB1"⟩ (by decide),
   C3_donation_validation.2 ["CC1"]
      (fun c => if c = "CC1" then some 5 else none)
      (fun u => if u = "DOE JANE|12345|ACME" then some 9 else none)
      _ (by decide)⟩

/-! ## Claim C4 -/

/-- Claim C4: under the insert-or-update policy, an incoming record whose
natural key already exists in the table updates the mutable fields of the
matching row in place — for bills (key: official_bill_number + congress)
the row keeps its key fields and receives the new `title`, `status` and
`bill_type`; for politicians (key: congress_id) the row keeps its
`congress_id` and receives the eight new mutable fields — the table length
is unchanged (no second row), and every row's key fields survive the
upsert.  Scenario F (changed bill status updated in place) is the witness. -/
theorem C4_upsert_in_place :
    (∀ (table : List IngestBills.BillRow) (p : IngestBills.ParsedBill)
       (i : Nat) (row : IngestBills.BillRow),
      table.get? i = some row → IngestBills.billKeyMatches row p = true →
        (IngestBills.upsertBill table p).length = table.length ∧
        (IngestBills.upsertBill table p).get? i =
          some { row with title := p.title, status := p.status,
                          bill_type := some p.bill_type } ∧
        (∀ (j : Nat) (row' : IngestBills.BillRow), table.get? j = some row' →
          ∃ row'', (IngestBills.upsertBill table p).get? j = some row'' ∧
            row''.official_bill_number = row'.official_bill_number ∧
            row''.congress = row'.congress)) ∧
    (∀ (table : List IngestPoliticians.PoliticianRow)
       (m : IngestPoliticians.MemberUpsert)
       (i : Nat) (row : IngestPoliticians.PoliticianRow),
      table.get? i = some row → row.congress_id = m.congress_id →
        (IngestPoliticians.upsertMember table m).length = table.length ∧
        (IngestPoliticians.upsertMember table m).get? i =
          some ⟨row.congress_id, m.first_name, some m.last_name, m.party,
                some m.state, m.chamber, m.is_active, m.start_year, m.end_year⟩ ∧
        (∀ (j : Nat) (row' : IngestPoliticians.PoliticianRow),
          table.get? j = some row' →
          ∃ row'', (IngestPoliticians.upsertMember table m).get? j = some row'' ∧
            row''.congress_id = row'.congress_id)) := by
  constructor
  · intro table p i row hget hkey
    have hmem : row ∈ table := List.get?_mem hget
    have hany : table.any (fun r => IngestBills.billKeyMatches r p) = true :=
      List.any_eq_true.mpr ⟨row, hmem, hkey⟩
    obtain ⟨hobn, hcongress⟩ :
        row.official_bill_number = p.official_bill_number ∧
        row.congress = p.congress := of_decide_eq_true hkey
    unfold IngestBills.upsertBill
    rw [if_pos hany]
    refine ⟨List.length_map _ _, ?_, ?_⟩
    · rw [List.get?_map, hget]
      simp only [Option.map_some']
      rw [if_pos hkey, ← hcongress]
    · intro j row' hget'
      rw [List.get?_map, hget']
      simp only [Option.map_some']
      by_cases hk : IngestBills.billKeyMatches row' p = true
      · obtain ⟨_, hcg⟩ :
            row'.official_bill_number = p.official_bill_number ∧
            row'.congress = p.congress := of_decide_eq_true hk
        rw [if_pos hk]
        exact ⟨_, rfl, rfl, hcg.symm⟩
      · rw [if_neg hk]
        exact ⟨row', rfl, rfl, rfl⟩
  · intro table m i row hget hkey
    have hmem : row ∈ table := List.get?_mem hget
    have hany : table.any (fun r => r.congress_id = m.congress_id) = true :=
      List.any_eq_true.mpr ⟨row, hmem, decide_eq_true hkey⟩
    unfold IngestPoliticians.upsertMember
    rw [if_pos hany]
    refine ⟨List.length_map _ _, ?_, ?_⟩
    · rw [List.get?_map, hget]
      simp only [Option.map_some']
      rw [if_pos hkey]
    · intro j row' hget'
      rw [List.get?_map, hget']
      simp only [Option.map_some']
      by_cases hk : row'.congress_id = m.congress_id
      · rw [if_pos hk]
        exact ⟨_, rfl, rfl⟩
      · rw [if_neg hk]
        exact ⟨row', rfl, rfl⟩

/-- Witness for C4, Scenario F: re-running the bill upsert with a changed
status for the existing key ("HR3076", 118) updates `status` in place and
creates no second row; likewise a politician re-ingest updates in place. -/
theorem C4_upsert_in_place_witness :
    (IngestBills.upsertBill
        [⟨"HR3076", some "HR", 118, some "T", some "Introduced"⟩]
        ⟨"HR3076", "HR", 118, some "T", some "Passed"⟩).length = 1 ∧
    (IngestBills.upsertBill
        [⟨"HR3076", some "HR", 118, some "T", some "Introduced"⟩]
        ⟨"HR3076", "HR", 118, some "T", some "Passed"⟩).get? 0 =
      some ⟨"HR3076", some "HR", 118, some "T", some "Passed"⟩ ∧
    (IngestPoliticians.upsertMember
        [⟨"B001", some "Old", some "Name", some "D", some "ME", some "House",
          false, some 2019, some 2023⟩]
        ⟨"B001", some "New", "Name", some "D", "ME", some "Senate",
          true, some 2019, none⟩).get? 0 =
      some ⟨"B001", some "New", some "Name", some "D", some "ME", some "Senate",
            true, some 2019, none⟩ := by
  have hb := C4_upsert_in_place.1
    [⟨"HR3076", some "HR", 118, some "T", some "Introduced"⟩]
    ⟨"HR3076", "HR", 118, some "T", some "Passed"⟩ 0
    ⟨"HR3076", some "HR", 118, some "T", some "Introduced"⟩ rfl (by decide)
  have hm := C4_upsert_in_place.2
    [⟨"B001", some "Old", some "Name", some "D", some "ME", some "House",
      false, some 2019, some 2023⟩]
    ⟨"B001", some "New", "Name", some "D", "ME", some "Senate",
      true, some 2019, none⟩ 0
    ⟨"B001", some "Old", some "Name", some "D", some "ME", some "House",
      false, some 2019, some 2023⟩ rfl rfl
  exact ⟨hb.1, hb.2.1, hm.2.1⟩

/-! ## Claim C10 -/

theorem transform_and_link_targets (fuzz : String → String → Nat)
    (db : List IngestFecLinks.DBPolitician) (fec : List IngestFecLinks.FECCandidate) :
    ∀ u ∈ IngestFecLinks.transform_and_link fuzz db fec,
      ∃ q ∈ db, q.fec_candidate_id = none ∧ u.db_id = q.politician_id := by
  intro u hu
  obtain ⟨q, hq, hfq⟩ := List.mem_filterMap.mp hu
  refine ⟨q, hq, ?_⟩
  by_cases hs : q.fec_candidate_id.isSome
  · rw [if_pos hs] at hfq
    exact absurd hfq (by simp)
  · rw [if_neg hs] at hfq
    simp only [] at hfq
    have hnone : q.fec_candidate_id = none := Option.not_isSome_iff_eq_none.mp hs
    refine ⟨hnone, ?_⟩
    cases hm : IngestFecLinks.matchCandidate fuzz
        (IngestFecLinks.normalize_name (some (q.last_name ++ ", " ++ q.first_name)))
        (fec.filter (fun c => c.CAND_OFFICE_ST = some q.state)) with
    | none => rw [hm] at hfq; exact absurd hfq (by simp)
    | some best =>
      rw [hm] at hfq
      have := Option.some.inj hfq
      rw [← this]

theorem get_politicians_to_link_targets (db : List IngestFecLinks.DBPolitician) :
    ∀ q ∈ LinkFecIds.get_politicians_to_link db,
      ∃ q' ∈ db, q'.fec_candidate_id = none ∧ q.db_id = q'.politician_id := by
  intro q hq
  obtain ⟨q', hq', hmk⟩ := List.mem_map.mp hq
  obtain ⟨hmem, hcond⟩ := List.mem_filter.mp hq'
  refine ⟨q', hmem, of_decide_eq_true hcond, ?_⟩
  rw [← hmk]

theorem foldl_applyLinkUpdate_frame (updates : List IngestFecLinks.UpdateItem) :
    ∀ (table : List IngestFecLinks.DBPolitician) (i : Nat)
      (p : IngestFecLinks.DBPolitician),
      table.get? i = some p →
      (∀ u ∈ updates, u.db_id ≠ p.politician_id) →
      (updates.foldl IngestFecLinks.applyLinkUpdate table).get? i = some p := by
  induction updates with
  | nil => intro table i p h _; exact h
  | cons u us ih =>
    intro table i p h hne
    rw [List.foldl_cons]
    apply ih
    · unfold IngestFecLinks.applyLinkUpdate
      by_cases hcol :
          table.any (fun r => r.fec_candidate_id = some u.fec_cand_id) = true
      · rw [if_pos hcol]; exact h
      · rw [if_neg hcol, List.get?_map, h]
        simp only [Option.map_some']
        rw [if_neg (fun habs =>
          hne u (List.mem_cons_self u us) habs.symm)]
    · intro v hv
      exact hne v (List.mem_cons_of_mem u hv)

theorem foldl_apiLinkStep_frame (fuzz : String → String → Nat)
    (oracle : LinkFecIds.PolLink → List LinkFecIds.FecResponse)
    (pols : List LinkFecIds.PolLink) :
    ∀ (table : List IngestFecLinks.DBPolitician) (i : Nat)
      (p : IngestFecLinks.DBPolitician),
      table.get? i = some p →
      (∀ q ∈ pols, q.db_id ≠ p.politician_id) →
      (pols.foldl (LinkFecIds.apiLinkStep fuzz oracle) table).get? i = some p := by
  induction pols with
  | nil => intro table i p h _; exact h
  | cons q qs ih =>
    intro table i p h hne
    rw [List.foldl_cons]
    apply ih
    · unfold LinkFecIds.apiLinkStep
      cases (LinkFecIds.find_and_link_fec_id fuzz q (oracle q)).1 with
      | none => exact h
      | some fid =>
        unfold LinkFecIds.applyFecIdUpdate
        rw [List.get?_map, h]
        simp only [Option.map_some']
        rw [if_neg (fun habs =>
          hne q (List.mem_cons_self q qs) habs.symm)]
    · intro v hv
      exact hne v (List.mem_cons_of_mem q hv)

/-- Claim C10: both FEC-linking pipelines operate only on politicians
whose `fec_candidate_id` is null — the bulk-file linker skips rows with a
present id, the live-API linker selects only `IS NULL` rows — so (given
distinct politician ids) a politician whose `fec_candidate_id` is already
set is left entirely unchanged, at its position, by a run of either
pipeline. -/
theorem C10_linked_rows_unchanged
    (fuzz : String → String → Nat)
    (db : List IngestFecLinks.DBPolitician)
    (fec : List IngestFecLinks.FECCandidate)
    (oracle : LinkFecIds.PolLink → List LinkFecIds.FecResponse)
    (i : Nat) (p : IngestFecLinks.DBPolitician)
    (hnodup : (db.map (fun r => r.politician_id)).Nodup)
    (hget : db.get? i = some p)
    (hsome : p.fec_candidate_id.isSome) :
    (IngestFecLinks.runBulkLinkPipeline fuzz db fec).get? i = some p ∧
    (LinkFecIds.runApiLinkPipeline fuzz db oracle).get? i = some p := by
  have hmem : p ∈ db := List.get?_mem hget
  have hinj := List.inj_on_of_nodup_map hnodup
  have hkey : ∀ q ∈ db, q.fec_candidate_id = none →
      q.politician_id ≠ p.politician_id := by
    intro q hq hqnone heq
    have hqp : q = p := hinj hq hmem heq
    rw [hqp] at hqnone
    rw [hqnone] at hsome
    exact absurd hsome (by simp)
  constructor
  · unfold IngestFecLinks.runBulkLinkPipeline IngestFecLinks.load_links_to_db
    apply foldl_applyLinkUpdate_frame _ _ _ _ hget
    intro u hu
    obtain ⟨q, hq, hqnone, hid⟩ := transform_and_link_targets fuzz db fec u hu
    rw [hid]
    exact hkey q hq hqnone
  · unfold LinkFecIds.runApiLinkPipeline
    apply foldl_apiLinkStep_frame _ _ _ _ _ _ hget
    intro q hq
    obtain ⟨q', hq', hnone, hid⟩ := get_politicians_to_link_targets db q hq
    rw [hid]
    exact hkey q' hq' hnone

/-- Witness for C10: a two-row table in which row 0 is already linked
(`fec_candidate_id = some "F9"`); both pipeline runs leave row 0 exactly
as it was. -/
theorem C10_linked_rows_unchanged_witness :
    (IngestFecLinks.runBulkLinkPipeline (fun _ _ => 100)
        [⟨1, "Angus", "King", "ME", some "F9", none⟩,
         ⟨2, "Susan", "Collins", "ME", none, none⟩] []).get? 0 =
      some ⟨1, "Angus", "King", "ME", some "F9", none⟩ ∧
    (LinkFecIds.runApiLinkPipeline (fun _ _ => 100)
        [⟨1, "Angus", "King", "ME", some "F9", none⟩,
         ⟨2, "Susan", "Collins", "ME", none, none⟩] (fun _ => [])).get? 0 =
      some ⟨1, "Angus", "King", "ME", some "F9", none⟩ :=
  C10_linked_rows_unchanged (fun _ _ => 100)
    [⟨1, "Angus", "King", "ME", some "F9", none⟩,
     ⟨2, "Susan", "Collins", "ME", none, none⟩] [] (fun _ => []) 0
    ⟨1, "Angus", "King", "ME", some "F9", none⟩ (by decide) rfl rfl

end PoliticianProject
